import Mathlib

/-!
Shallow embedding of `src/modules/history.js`: an undo/redo manager storing
pixel snapshots from a canvas, with bounded size, taint tracking on
cross-origin read failures, and a background thumbnail pipeline.

JS arrays used as stacks are modelled as Lean lists in the same order:
index 0 is the oldest entry, the last element is the newest, so
`arr.push(x)` is `l ++ [x]`, `arr.pop()` takes `l.getLast?` and keeps
`l.dropLast`, and `arr.shift()` takes the head.  The `WeakMap` of
per-snapshot metadata is modelled as an association list keyed by an
explicit snapshot identity (each `getImageData` call yields a fresh JS
object, modelled by a fresh counter `nextId`).  The outcome of the
`ctx.getImageData` read performed by an operation is an explicit input
(`Surface`), and each `_updateUI()` notification is counted in `uiEvents`.
-/

namespace HistoryJs

/-- Pixel buffer as returned by `getImageData`: width, height, RGBA bytes. -/
structure ImageData where
  width : Nat
  height : Nat
  data : List Nat
deriving DecidableEq

/-- A stored snapshot: the `ImageData` object together with its JS object
identity (the key used by the metadata `WeakMap`). -/
structure Snapshot where
  sid : Nat
  img : ImageData
deriving DecidableEq

/-- Metadata attached to a snapshot via `metaMap`: `{ ts, label, thumbDataUrl? }`. -/
structure Meta where
  ts : Nat
  label : String
  thumbDataUrl : Option String
deriving DecidableEq

/-- `metaMap.get(key)` on the association list. -/
def metaGet : List (Nat × Meta) → Nat → Option Meta
  | [], _ => none
  | (k, v) :: rest, k' => if k = k' then some v else metaGet rest k'

/-- `metaMap.set(key, v)`: replace the existing entry or append a new one. -/
def metaSet : List (Nat × Meta) → Nat → Meta → List (Nat × Meta)
  | [], k, v => [(k, v)]
  | (k0, v0) :: rest, k, v =>
      if k0 = k then (k, v) :: rest else (k0, v0) :: metaSet rest k v

/-- `metaMap.delete(key)`. -/
def metaDelete : List (Nat × Meta) → Nat → List (Nat × Meta)
  | [], _ => []
  | (k0, v0) :: rest, k =>
      if k0 = k then metaDelete rest k else (k0, v0) :: metaDelete rest k

/-- Iterated deletion, oldest evicted id first. -/
def metaDeleteIds (m : List (Nat × Meta)) (ids : List Nat) : List (Nat × Meta) :=
  ids.foldl metaDelete m

/-- The module-level mutable state of `history.js`. -/
structure HistoryState where
  undoStack : List Snapshot
  redoStack : List Snapshot
  isTainted : Bool
  maxEntries : Nat
  maxBytes : Option Nat
  protectReturned : Bool
  thumbEnabled : Bool
  thumbHeight : Nat
  metaMap : List (Nat × Meta)
  nextId : Nat
  uiEvents : Nat
deriving DecidableEq

/-- Outcome of the `ctx.getImageData(0, 0, w, h)` read attempted by an
operation: the canvas is missing or has zero width, the read succeeds, the
read throws a security/taint-classified error, or it throws some other
error. -/
inductive Surface where
  | empty
  | readable (img : ImageData)
  | secure
  | failing
deriving DecidableEq

/-- Bytes of one snapshot at 4 bytes per pixel, as in `getEstimatedBytes`. -/
def snapshotBytes (s : Snapshot) : Nat :=
  s.img.width * s.img.height * 4

/-- Byte total of one stack. -/
def stackBytes (l : List Snapshot) : Nat :=
  (l.map snapshotBytes).sum

/-- `getEstimatedBytes()`: 4 bytes per pixel summed over both stacks. -/
def getEstimatedBytes (s : HistoryState) : Nat :=
  stackBytes s.undoStack + stackBytes s.redoStack

/-- First pass of `_enforceLimits`: while `undoStack.length > maxEntries`,
shift the oldest entry off the front and delete its metadata. -/
def enforceCount (maxE : Nat) : List Snapshot → List (Nat × Meta) →
    List Snapshot × List (Nat × Meta)
  | [], m => ([], m)
  | e :: rest, m =>
      if maxE < (e :: rest).length then
        enforceCount maxE rest (metaDelete m e.sid)
      else (e :: rest, m)

/-- Second pass of `_enforceLimits`: while the byte estimate over both
stacks exceeds `maxB` and the undo stack is non-empty, shift the oldest
undo entry and delete its metadata.  Only the undo stack is evicted. -/
def enforceBytes (maxB : Nat) (redo : List Snapshot) : List Snapshot →
    List (Nat × Meta) → List Snapshot × List (Nat × Meta)
  | [], m => ([], m)
  | e :: rest, m =>
      if maxB < stackBytes (e :: rest) + stackBytes redo then
        enforceBytes maxB redo rest (metaDelete m e.sid)
      else (e :: rest, m)

/-- `_enforceLimits()`: the count pass, then — only when `maxBytes` is set
and truthy (nonzero) — the byte pass. -/
def enforceLimits (s : HistoryState) : HistoryState :=
  let c := enforceCount s.maxEntries s.undoStack s.metaMap
  match s.maxBytes with
  | none => { s with undoStack := c.1, metaMap := c.2 }
  | some b =>
      if b = 0 then { s with undoStack := c.1, metaMap := c.2 }
      else
        let d := enforceBytes b s.redoStack c.1 c.2
        { s with undoStack := d.1, metaMap := d.2 }

/-- `_updateUI()`: emit one notification (the payload is recomputed from
live state; the model records the emission). -/
def updateUI (s : HistoryState) : HistoryState :=
  { s with uiEvents := s.uiEvents + 1 }

/-- `cloneImageData`: fresh buffer with the same dimensions and bytes. -/
def cloneImageData (imgData : ImageData) : ImageData :=
  { width := imgData.width, height := imgData.height, data := imgData.data }

/-- `canUndo()`: `!isTainted && undoStack.length > 0`. -/
def canUndo (s : HistoryState) : Bool :=
  !s.isTainted && decide (0 < s.undoStack.length)

/-- `canRedo()`: `!isTainted && redoStack.length > 0`. -/
def canRedo (s : HistoryState) : Bool :=
  !s.isTainted && decide (0 < s.redoStack.length)

/-- `getUndoCount()`. -/
def getUndoCount (s : HistoryState) : Nat := s.undoStack.length

/-- `getRedoCount()`. -/
def getRedoCount (s : HistoryState) : Nat := s.redoStack.length

/-- `getTainted()`. -/
def getTainted (s : HistoryState) : Bool := s.isTainted

/-- The state right after the successful-read part of `pushHistory`:
`undoStack.push(snapshot)`, `metaMap.set(snapshot, {ts, label})`,
`redoStack = []`; the fresh `getImageData` object consumes one identity. -/
def pushState (s : HistoryState) (img : ImageData) (label : String) (ts : Nat) :
    HistoryState :=
  { s with
    undoStack := s.undoStack ++ [{ sid := s.nextId, img := img }],
    metaMap := metaSet s.metaMap s.nextId
      { ts := ts, label := label, thumbDataUrl := none },
    redoStack := [],
    nextId := s.nextId + 1 }

/-- `pushHistory(label)`: capture the surface and append it to the undo
stack, record metadata, clear the redo stack, run `_enforceLimits`, clear
the taint flag, notify, and return `true`.  Returns `false` without any
state change when the canvas is missing/zero-width or the read throws a
non-security error; on a security error it only sets the taint flag and
notifies.  (Thumbnail generation is scheduled asynchronously; its
completion is the separate `thumbComplete` step.) -/
def pushHistory (s : HistoryState) (surf : Surface) (label : String) (ts : Nat) :
    HistoryState × Bool :=
  match surf with
  | Surface.empty => (s, false)
  | Surface.readable img =>
      let s2 := enforceLimits (pushState s img label ts)
      if s2.isTainted then (updateUI { s2 with isTainted := false }, true)
      else (updateUI s2, true)
  | Surface.secure => (updateUI { s with isTainted := true }, false)
  | Surface.failing => (s, false)

/-- Shared tail of `undo()`: `undoStack.pop()`, wrap the popped snapshot
(cloned when `protectReturned`), notify, return. -/
def undoPop (s : HistoryState) : HistoryState × Option ImageData :=
  let prev := s.undoStack.getLast?
  let s1 := { s with undoStack := s.undoStack.dropLast }
  let result := match prev with
    | some p => some (if s.protectReturned then cloneImageData p.img else p.img)
    | none => none
  (updateUI s1, result)

/-- Successful `redo-base` capture inside `undo()`: `redoStack.push(current)`
with metadata label `"redo-base"`. -/
def undoCapture (s : HistoryState) (img : ImageData) (ts : Nat) : HistoryState :=
  { s with
    redoStack := s.redoStack ++ [{ sid := s.nextId, img := img }],
    metaMap := metaSet s.metaMap s.nextId
      { ts := ts, label := "redo-base", thumbDataUrl := none },
    nextId := s.nextId + 1 }

/-- `undo()`: bail when tainted or the undo stack is empty; attempt to
capture the current surface as a `redo-base` snapshot onto the redo stack
(a security failure there sets the taint flag and returns `null` without
popping; any other read failure is swallowed); then pop the most recent
undo entry and return it. -/
def undo (s : HistoryState) (surf : Surface) (ts : Nat) :
    HistoryState × Option ImageData :=
  if s.isTainted || !canUndo s then (s, none)
  else
    match surf with
    | Surface.secure => (updateUI { s with isTainted := true }, none)
    | Surface.readable img => undoPop (undoCapture s img ts)
    | Surface.empty => undoPop s
    | Surface.failing => undoPop s

/-- Successful `undo-base` capture inside `redo()`: `undoStack.push(current)`
with metadata label `"undo-base"`. -/
def redoCapture (s : HistoryState) (img : ImageData) (ts : Nat) : HistoryState :=
  { s with
    undoStack := s.undoStack ++ [{ sid := s.nextId, img := img }],
    metaMap := metaSet s.metaMap s.nextId
      { ts := ts, label := "undo-base", thumbDataUrl := none },
    nextId := s.nextId + 1 }

/-- `redo()`: bail when tainted or the redo stack is empty; pop the redo
stack first; then attempt to capture the current surface as an
`undo-base` snapshot onto the undo stack and re-run `_enforceLimits` (a
security failure there sets the taint flag and returns `null` — the redo
stack has already lost its popped top; any other read failure is
swallowed); return the popped snapshot (cloned when `protectReturned`). -/
def redo (s : HistoryState) (surf : Surface) (ts : Nat) :
    HistoryState × Option ImageData :=
  if s.isTainted || !canRedo s then (s, none)
  else
    match s.redoStack.getLast? with
    | none => (s, none)
    | some next =>
        let s0 := { s with redoStack := s.redoStack.dropLast }
        match surf with
        | Surface.secure => (updateUI { s0 with isTainted := true }, none)
        | Surface.readable img =>
            let s2 := enforceLimits (redoCapture s0 img ts)
            (updateUI s2,
              some (if s2.protectReturned then cloneImageData next.img else next.img))
        | Surface.empty =>
            (updateUI s0,
              some (if s0.protectReturned then cloneImageData next.img else next.img))
        | Surface.failing =>
            (updateUI s0,
              some (if s0.protectReturned then cloneImageData next.img else next.img))

/-- `setMaxEntries(n)`: reject non-finite or non-positive `n`; otherwise
floor it, re-enforce limits immediately, and notify. -/
def setMaxEntries (s : HistoryState) (n : Int) : HistoryState :=
  if n ≤ 0 then s
  else updateUI (enforceLimits { s with maxEntries := n.toNat })

/-- `setThumbHeight(h)`: accept only finite `h` with `48 ≤ h ≤ 256`;
otherwise leave everything unchanged. -/
def setThumbHeight (s : HistoryState) (h : Int) : HistoryState :=
  if 48 ≤ h ∧ h ≤ 256 then updateUI { s with thumbHeight := h.toNat }
  else s

/-- Default `maxEntries`. -/
def DEFAULT_MAX_ENTRIES : Nat := 50

/-- The options object accepted by `initHistory(canvas, options)`; absent
or non-finite numeric fields are `none`. -/
structure InitOptions where
  maxEntries : Option Int
  maxBytes : Option Int
  protectReturned : Bool
  thumbnails : Bool
  thumbHeight : Option Int
deriving DecidableEq

/-- `initHistory(canvas, options)` over the prior module state: invalid
`maxEntries` falls back to the default 50; invalid `maxBytes` becomes
unset; `thumbHeight` is updated only when `th > 16 && th <= 256`,
otherwise the prior module value is retained; both stacks are cleared,
the taint flag reset, and an initial notification emitted.  (The
`WeakMap` of metadata is a module constant and is not cleared.) -/
def initHistory (s : HistoryState) (opts : InitOptions) : HistoryState :=
  let me := match opts.maxEntries with
    | some m => if 0 < m then m.toNat else DEFAULT_MAX_ENTRIES
    | none => DEFAULT_MAX_ENTRIES
  let mb := match opts.maxBytes with
    | some b => if 0 < b then some b.toNat else none
    | none => none
  let th := match opts.thumbHeight with
    | some t => if 16 < t ∧ t ≤ 256 then t.toNat else s.thumbHeight
    | none => s.thumbHeight
  updateUI { s with
    undoStack := [], redoStack := [], isTainted := false,
    maxEntries := me, maxBytes := mb,
    protectReturned := opts.protectReturned,
    thumbEnabled := opts.thumbnails,
    thumbHeight := th }

/-- Completion handler of the background thumbnail job for the snapshot
with identity `sid` (the body of `fr.onload` inside
`_scheduleThumbGeneration`): read the existing metadata or default to an
empty object, store the encoded preview, write it back, and notify —
unconditionally, with no liveness check. -/
def thumbComplete (s : HistoryState) (sid : Nat) (dataUrl : String) : HistoryState :=
  let m := (metaGet s.metaMap sid).getD { ts := 0, label := "", thumbDataUrl := none }
  updateUI { s with
    metaMap := metaSet s.metaMap sid { m with thumbDataUrl := some dataUrl } }

/-- One row of the entry list built by `_updateUI` / `getHistoryThumbnails`. -/
structure EntryView where
  index : Nat
  width : Nat
  height : Nat
  ts : Nat
  label : String
  thumbDataUrl : Option String
deriving DecidableEq

/-- The per-entry mapping of `undoStack.map((imgData, idx) => ...)`,
carrying the running index; `m.ts || 0`, `m.label || ""` and
`m.thumbDataUrl || null` apply JS falsiness to the defaults. -/
def entriesFrom (idx : Nat) : List Snapshot → List (Nat × Meta) → List EntryView
  | [], _ => []
  | e :: rest, m =>
      let md := (metaGet m e.sid).getD { ts := 0, label := "", thumbDataUrl := none }
      { index := idx, width := e.img.width, height := e.img.height,
        ts := md.ts, label := md.label,
        thumbDataUrl := match md.thumbDataUrl with
          | some u => if u = "" then none else some u
          | none => none } :: entriesFrom (idx + 1) rest m

/-- `getHistoryThumbnails()` (the same entry list `_updateUI` embeds in
its payload): one view row per undo-stack snapshot, in stack order. -/
def getHistoryThumbnails (s : HistoryState) : List EntryView :=
  entriesFrom 0 s.undoStack s.metaMap

/-- One call of the public mutating API (plus the asynchronous thumbnail
completion), with the surface-read outcome it observes as data. -/
inductive HOp where
  | pushOp (surf : Surface) (label : String) (ts : Nat)
  | undoOp (surf : Surface) (ts : Nat)
  | redoOp (surf : Surface) (ts : Nat)
  | setMaxOp (n : Int)
  | setThumbOp (h : Int)
  | thumbDoneOp (sid : Nat) (url : String)
deriving DecidableEq

/-- Apply one call, discarding its return value. -/
def step (s : HistoryState) : HOp → HistoryState
  | HOp.pushOp surf l t => (pushHistory s surf l t).1
  | HOp.undoOp surf t => (undo s surf t).1
  | HOp.redoOp surf t => (redo s surf t).1
  | HOp.setMaxOp n => setMaxEntries s n
  | HOp.setThumbOp h => setThumbHeight s h
  | HOp.thumbDoneOp i u => thumbComplete s i u

/-- Apply a call sequence left to right. -/
def runOps (s : HistoryState) (ops : List HOp) : HistoryState :=
  ops.foldl step s

/-- The module state right after loading with empty persisted settings:
`maxEntries = 50`, `thumbHeight = 96`, no byte cap, nothing stored. -/
def initialState : HistoryState :=
  { undoStack := [], redoStack := [], isTainted := false, maxEntries := 50,
    maxBytes := none, protectReturned := false, thumbEnabled := true,
    thumbHeight := 96, metaMap := [], nextId := 0, uiEvents := 0 }

/-! ### Helper lemmas about the metadata table -/

theorem metaGet_metaDelete (m : List (Nat × Meta)) (k k' : Nat) :
    metaGet (metaDelete m k') k = if k = k' then none else metaGet m k := by
  induction m with
  | nil => simp [metaDelete, metaGet]
  | cons p rest ih =>
      rcases p with ⟨k0, v0⟩
      by_cases h0 : k0 = k'
      · rw [show metaDelete ((k0, v0) :: rest) k' = metaDelete rest k' from by
            simp [metaDelete, h0]]
        rw [ih]
        by_cases hk : k = k'
        · simp [hk]
        · have hk0 : ¬ k0 = k := fun h => hk (h.symm.trans h0)
          simp [metaGet, hk, hk0]
      · rw [show metaDelete ((k0, v0) :: rest) k' = (k0, v0) :: metaDelete rest k' from by
            simp [metaDelete, h0]]
        by_cases hk0 : k0 = k
        · have hk : ¬ k = k' := fun h => h0 (hk0.trans h)
          simp [metaGet, hk0, hk]
        · simp [metaGet, hk0, ih]

theorem metaGet_metaSet_self (m : List (Nat × Meta)) (k : Nat) (v : Meta) :
    metaGet (metaSet m k v) k = some v := by
  induction m with
  | nil => simp [metaSet, metaGet]
  | cons p rest ih =>
      rcases p with ⟨k0, v0⟩
      by_cases h0 : k0 = k <;> simp [metaSet, metaGet, h0, ih]

theorem metaGet_metaSet_ne (m : List (Nat × Meta)) (k : Nat) (v : Meta)
    (k' : Nat) (h : k ≠ k') : metaGet (metaSet m k v) k' = metaGet m k' := by
  induction m with
  | nil => simp [metaSet, metaGet, h]
  | cons p rest ih =>
      rcases p with ⟨k0, v0⟩
      by_cases h0 : k0 = k
      · simp [metaSet, metaGet, h0, h]
      · simp [metaSet, metaGet, h0, ih]

theorem metaGet_metaDeleteIds_not_mem (ids : List Nat) (m : List (Nat × Meta))
    (k : Nat) (h : k ∉ ids) : metaGet (metaDeleteIds m ids) k = metaGet m k := by
  induction ids generalizing m with
  | nil => rfl
  | cons i rest ih =>
      have hne : ¬ k = i := fun he => h (by simp [he])
      have hr : k ∉ rest := fun hm => h (by simp [hm])
      calc metaGet (metaDeleteIds m (i :: rest)) k
          = metaGet (metaDeleteIds (metaDelete m i) rest) k := rfl
        _ = metaGet (metaDelete m i) k := ih _ hr
        _ = metaGet m k := by rw [metaGet_metaDelete] ; simp [hne]

theorem metaGet_metaDeleteIds_mem (ids : List Nat) (m : List (Nat × Meta))
    (k : Nat) (h : k ∈ ids) : metaGet (metaDeleteIds m ids) k = none := by
  induction ids generalizing m with
  | nil => cases h
  | cons i rest ih =>
      by_cases hr : k ∈ rest
      · exact ih _ hr
      · have hik : k = i := by
          rcases List.mem_cons.mp h with h1 | h2
          · exact h1
          · exact absurd h2 hr
        calc metaGet (metaDeleteIds m (i :: rest)) k
            = metaGet (metaDeleteIds (metaDelete m i) rest) k := rfl
          _ = metaGet (metaDelete m i) k := metaGet_metaDeleteIds_not_mem _ _ _ hr
          _ = none := by rw [metaGet_metaDelete] ; simp [hik]

theorem metaDeleteIds_append (m : List (Nat × Meta)) (l1 l2 : List Nat) :
    metaDeleteIds m (l1 ++ l2) = metaDeleteIds (metaDeleteIds m l1) l2 := by
  simp [metaDeleteIds]

theorem metaGet_metaDeleteIds_of_none (ids : List Nat) (m : List (Nat × Meta))
    (i : Nat) (h : metaGet m i = none) : metaGet (metaDeleteIds m ids) i = none := by
  induction ids generalizing m with
  | nil => exact h
  | cons j rest ih =>
      apply ih
      rw [metaGet_metaDelete]
      split
      · rfl
      · exact h

theorem entriesFrom_metaSet (idx : Nat) (u : List Snapshot)
    (m : List (Nat × Meta)) (k : Nat) (v : Meta) (h : k ∉ u.map Snapshot.sid) :
    entriesFrom idx u (metaSet m k v) = entriesFrom idx u m := by
  induction u generalizing idx with
  | nil => rfl
  | cons e rest ih =>
      have h1 : k ≠ e.sid := fun he => h (by simp [he])
      have h2 : k ∉ rest.map Snapshot.sid := fun hm => h (by simp [hm])
      simp only [entriesFrom, metaGet_metaSet_ne m k v e.sid h1]
      rw [ih _ h2]

/-! ### Helper lemmas about eviction -/

theorem stackBytes_nil : stackBytes [] = 0 := rfl

theorem stackBytes_append (a b : List Snapshot) :
    stackBytes (a ++ b) = stackBytes a + stackBytes b := by
  simp [stackBytes]

theorem stackBytes_dropLast_le (l : List Snapshot) :
    stackBytes l.dropLast ≤ stackBytes l := by
  rcases List.eq_nil_or_concat l with h | ⟨L, b, h⟩
  · simp [h]
  · subst h
    simp [List.dropLast_concat, stackBytes_append]

theorem enforceCount_length (maxE : Nat) (u : List Snapshot)
    (m : List (Nat × Meta)) : (enforceCount maxE u m).1.length ≤ maxE := by
  induction u generalizing m with
  | nil => simp [enforceCount]
  | cons e rest ih =>
      rw [enforceCount]
      split
      · exact ih _
      · next h => exact Nat.le_of_not_lt h

theorem enforceCount_eq_drop (maxE : Nat) (u : List Snapshot)
    (m : List (Nat × Meta)) :
    ∃ k, k ≤ u.length ∧
      enforceCount maxE u m =
        (u.drop k, metaDeleteIds m ((u.take k).map Snapshot.sid)) := by
  induction u generalizing m with
  | nil => exact ⟨0, by simp [enforceCount, metaDeleteIds]⟩
  | cons e rest ih =>
      rw [enforceCount]
      split
      · obtain ⟨k, hk, heq⟩ := ih (metaDelete m e.sid)
        refine ⟨k + 1, by simpa using hk, ?_⟩
        simpa [metaDeleteIds] using heq
      · exact ⟨0, by simp [metaDeleteIds]⟩

theorem enforceBytes_eq_drop (maxB : Nat) (redo u : List Snapshot)
    (m : List (Nat × Meta)) :
    ∃ k, k ≤ u.length ∧
      enforceBytes maxB redo u m =
        (u.drop k, metaDeleteIds m ((u.take k).map Snapshot.sid)) := by
  induction u generalizing m with
  | nil => exact ⟨0, by simp [enforceBytes, metaDeleteIds]⟩
  | cons e rest ih =>
      rw [enforceBytes]
      split
      · obtain ⟨k, hk, heq⟩ := ih (metaDelete m e.sid)
        refine ⟨k + 1, by simpa using hk, ?_⟩
        simpa [metaDeleteIds] using heq
      · exact ⟨0, by simp [metaDeleteIds]⟩

theorem enforceBytes_length_le (maxB : Nat) (redo u : List Snapshot)
    (m : List (Nat × Meta)) : (enforceBytes maxB redo u m).1.length ≤ u.length := by
  obtain ⟨k, _, heq⟩ := enforceBytes_eq_drop maxB redo u m
  rw [heq, List.length_drop]
  exact Nat.sub_le _ _

theorem enforceBytes_post (maxB : Nat) (redo u : List Snapshot)
    (m : List (Nat × Meta)) :
    stackBytes (enforceBytes maxB redo u m).1 + stackBytes redo ≤ maxB ∨
      (enforceBytes maxB redo u m).1 = [] := by
  induction u generalizing m with
  | nil => right ; simp [enforceBytes]
  | cons e rest ih =>
      rw [enforceBytes]
      split
      · exact ih _
      · next h => exact Or.inl (Nat.le_of_not_lt h)

theorem stackBytes_drop_le (k : Nat) (l : List Snapshot) :
    stackBytes (l.drop k) ≤ stackBytes l := by
  conv_rhs => rw [← List.take_append_drop k l]
  rw [stackBytes_append]
  exact Nat.le_add_left _ _

theorem enforceCount_bytes_le (maxE : Nat) (u : List Snapshot)
    (m : List (Nat × Meta)) : stackBytes (enforceCount maxE u m).1 ≤ stackBytes u := by
  obtain ⟨k, _, heq⟩ := enforceCount_eq_drop maxE u m
  rw [heq]
  exact stackBytes_drop_le k u

theorem enforceBytes_bytes_le (maxB : Nat) (redo u : List Snapshot)
    (m : List (Nat × Meta)) :
    stackBytes (enforceBytes maxB redo u m).1 ≤ stackBytes u := by
  obtain ⟨k, _, heq⟩ := enforceBytes_eq_drop maxB redo u m
  rw [heq]
  exact stackBytes_drop_le k u

/-- `_enforceLimits` only rewrites the undo stack and the metadata table;
every other field of the state is untouched. -/
theorem enforceLimits_shape (s : HistoryState) :
    ∃ p : List Snapshot × List (Nat × Meta),
      enforceLimits s = { s with undoStack := p.1, metaMap := p.2 } := by
  unfold enforceLimits
  cases s.maxBytes with
  | none => exact ⟨_, rfl⟩
  | some b =>
      dsimp only
      split
      · exact ⟨_, rfl⟩
      · exact ⟨_, rfl⟩

theorem enforceLimits_redoStack (s : HistoryState) :
    (enforceLimits s).redoStack = s.redoStack := by
  obtain ⟨p, hp⟩ := enforceLimits_shape s
  rw [hp]

theorem enforceLimits_isTainted (s : HistoryState) :
    (enforceLimits s).isTainted = s.isTainted := by
  obtain ⟨p, hp⟩ := enforceLimits_shape s
  rw [hp]

theorem enforceLimits_maxEntries (s : HistoryState) :
    (enforceLimits s).maxEntries = s.maxEntries := by
  obtain ⟨p, hp⟩ := enforceLimits_shape s
  rw [hp]

theorem enforceLimits_maxBytes (s : HistoryState) :
    (enforceLimits s).maxBytes = s.maxBytes := by
  obtain ⟨p, hp⟩ := enforceLimits_shape s
  rw [hp]

theorem enforceLimits_protectReturned (s : HistoryState) :
    (enforceLimits s).protectReturned = s.protectReturned := by
  obtain ⟨p, hp⟩ := enforceLimits_shape s
  rw [hp]

theorem enforceLimits_undo_length (s : HistoryState) :
    (enforceLimits s).undoStack.length ≤ s.maxEntries := by
  unfold enforceLimits
  cases s.maxBytes with
  | none => exact enforceCount_length _ _ _
  | some b =>
      dsimp only
      split
      · exact enforceCount_length _ _ _
      · exact le_trans (enforceBytes_length_le _ _ _ _) (enforceCount_length _ _ _)

/-- A successful read always makes `pushHistory` return `true`. -/
theorem pushHistory_readable_snd (s : HistoryState) (img : ImageData)
    (l : String) (t : Nat) : (pushHistory s (Surface.readable img) l t).2 = true := by
  unfold pushHistory
  dsimp only
  split <;> rfl

/-- After a successful read, `pushHistory` leaves the redo stack empty. -/
theorem pushHistory_readable_redo (s : HistoryState) (img : ImageData)
    (l : String) (t : Nat) :
    (pushHistory s (Surface.readable img) l t).1.redoStack = [] := by
  unfold pushHistory
  dsimp only
  split <;>
  · dsimp only [updateUI]
    rw [enforceLimits_redoStack]
    rfl

/-- Full characterization of `_enforceLimits`: for some `k` it drops the
`k` oldest undo snapshots and deletes exactly their metadata, leaving
every other field of the state alone. -/
theorem enforceLimits_eq_drop (s : HistoryState) :
    ∃ k, k ≤ s.undoStack.length ∧
      enforceLimits s = { s with
        undoStack := s.undoStack.drop k,
        metaMap := metaDeleteIds s.metaMap
          ((s.undoStack.take k).map Snapshot.sid) } := by
  unfold enforceLimits
  rcases hmb : s.maxBytes with _ | b
  · simp only [hmb]
    obtain ⟨k, hk, heq⟩ := enforceCount_eq_drop s.maxEntries s.undoStack s.metaMap
    exact ⟨k, hk, by rw [heq]⟩
  · simp only [hmb]
    by_cases hb : b = 0
    · rw [if_pos hb]
      obtain ⟨k, hk, heq⟩ := enforceCount_eq_drop s.maxEntries s.undoStack s.metaMap
      exact ⟨k, hk, by rw [heq]⟩
    · rw [if_neg hb]
      obtain ⟨k1, hk1, h1⟩ := enforceCount_eq_drop s.maxEntries s.undoStack s.metaMap
      rw [h1]
      obtain ⟨k2, hk2, h2⟩ := enforceBytes_eq_drop b s.redoStack (s.undoStack.drop k1)
        (metaDeleteIds s.metaMap ((s.undoStack.take k1).map Snapshot.sid))
      rw [List.length_drop] at hk2
      refine ⟨k1 + k2, by omega, ?_⟩
      rw [h2]
      dsimp only
      rw [List.drop_drop, List.take_add, List.map_append, metaDeleteIds_append]

/-! ### C10 -/

/-- C10: `canUndo()` is true exactly when the state is untainted and the
undo stack is non-empty, and `canRedo()` is true exactly when the state is
untainted and the redo stack is non-empty; in particular both report false
while tainted even when the corresponding stack has entries. -/
theorem c10_canUndo_canRedo (s : HistoryState) :
    (canUndo s = true ↔ s.isTainted = false ∧ s.undoStack ≠ []) ∧
    (canRedo s = true ↔ s.isTainted = false ∧ s.redoStack ≠ []) := by
  constructor <;>
    simp [canUndo, canRedo, Bool.and_eq_true, Bool.not_eq_true',
      List.length_pos]

/-! ### C9 -/

/-- C9: whatever the limits, `_enforceLimits` evicts exactly a prefix of
the undo stack — the `k` oldest snapshots in insertion order, never chosen
by size or label — keeps the rest in order, deletes exactly the evicted
snapshots' metadata entries (each evicted identity no longer resolves in
the metadata table), and never touches the redo stack. -/
theorem c9_eviction_oldest_first (s : HistoryState) :
    ∃ k, k ≤ s.undoStack.length ∧
      (enforceLimits s).undoStack = s.undoStack.drop k ∧
      (enforceLimits s).metaMap =
        metaDeleteIds s.metaMap ((s.undoStack.take k).map Snapshot.sid) ∧
      (((s.undoStack.take k).map Snapshot.sid).all
        fun i => (metaGet (enforceLimits s).metaMap i).isNone) = true ∧
      (enforceLimits s).redoStack = s.redoStack := by
  obtain ⟨k, hk, heq⟩ := enforceLimits_eq_drop s
  refine ⟨k, hk, by rw [heq], by rw [heq], ?_, by rw [heq]⟩
  rw [heq, List.all_eq_true]
  intro i hi
  rw [Option.isNone_iff_eq_none]
  exact metaGet_metaDeleteIds_mem _ _ _ hi

/-! ### C3 -/

/-- The count invariant: a positive entry limit that bounds the undo
stack's length. -/
def UndoInv (s : HistoryState) : Prop :=
  0 < s.maxEntries ∧ s.undoStack.length ≤ s.maxEntries

theorem undoInv_undoPop (s : HistoryState) (h : UndoInv s) :
    UndoInv (undoPop s).1 := by
  refine ⟨h.1, ?_⟩
  dsimp only [undoPop, updateUI]
  calc s.undoStack.dropLast.length
      = s.undoStack.length - 1 := List.length_dropLast _
    _ ≤ s.undoStack.length := Nat.sub_le _ _
    _ ≤ s.maxEntries := h.2

theorem undoInv_pushHistory (s : HistoryState) (surf : Surface) (l : String)
    (t : Nat) (h : UndoInv s) : UndoInv (pushHistory s surf l t).1 := by
  cases surf with
  | empty => exact h
  | failing => exact h
  | secure => exact ⟨h.1, h.2⟩
  | readable img =>
      unfold pushHistory
      dsimp only
      split <;>
      · constructor
        · dsimp only [updateUI]
          rw [enforceLimits_maxEntries]
          exact h.1
        · dsimp only [updateUI]
          rw [enforceLimits_maxEntries]
          exact enforceLimits_undo_length _

theorem undoInv_undo (s : HistoryState) (surf : Surface) (t : Nat)
    (h : UndoInv s) : UndoInv (undo s surf t).1 := by
  unfold undo
  split
  · exact h
  · cases surf with
    | secure => exact ⟨h.1, h.2⟩
    | readable img => exact undoInv_undoPop _ ⟨h.1, h.2⟩
    | empty => exact undoInv_undoPop _ h
    | failing => exact undoInv_undoPop _ h

theorem undoInv_redo (s : HistoryState) (surf : Surface) (t : Nat)
    (h : UndoInv s) : UndoInv (redo s surf t).1 := by
  unfold redo
  split
  · exact h
  · split
    · exact h
    · cases surf with
      | secure => exact ⟨h.1, h.2⟩
      | empty => exact ⟨h.1, h.2⟩
      | failing => exact ⟨h.1, h.2⟩
      | readable img =>
          constructor
          · dsimp only [updateUI]
            rw [enforceLimits_maxEntries]
            exact h.1
          · dsimp only [updateUI]
            rw [enforceLimits_maxEntries]
            exact enforceLimits_undo_length _

theorem undoInv_setMaxEntries (s : HistoryState) (n : Int) (h : UndoInv s) :
    UndoInv (setMaxEntries s n) := by
  unfold setMaxEntries
  split
  · exact h
  · next hn =>
      refine ⟨?_, ?_⟩
      · dsimp only [updateUI]
        rw [enforceLimits_maxEntries]
        show 0 < n.toNat
        omega
      · dsimp only [updateUI]
        rw [enforceLimits_maxEntries]
        exact enforceLimits_undo_length _

theorem undoInv_setThumbHeight (s : HistoryState) (n : Int) (h : UndoInv s) :
    UndoInv (setThumbHeight s n) := by
  unfold setThumbHeight
  split
  · exact ⟨h.1, h.2⟩
  · exact h

theorem undoInv_thumbComplete (s : HistoryState) (i : Nat) (u : String)
    (h : UndoInv s) : UndoInv (thumbComplete s i u) :=
  ⟨h.1, h.2⟩

theorem undoInv_step (s : HistoryState) (op : HOp) (h : UndoInv s) :
    UndoInv (step s op) := by
  cases op with
  | pushOp surf l t => exact undoInv_pushHistory s surf l t h
  | undoOp surf t => exact undoInv_undo s surf t h
  | redoOp surf t => exact undoInv_redo s surf t h
  | setMaxOp n => exact undoInv_setMaxEntries s n h
  | setThumbOp n => exact undoInv_setThumbHeight s n h
  | thumbDoneOp i u => exact undoInv_thumbComplete s i u h

/-- C3: starting from any state with a positive entry limit that bounds
the undo stack (any freshly initialized state qualifies), after every
sequence of `push`/`undo`/`redo`/`setMaxEntries` (and also
`setThumbHeight` and thumbnail-completion) calls the undo stack's length
is at most the current `maxEntries`, and `maxEntries` stays positive —
including immediately after a `setMaxEntries` call lowering the limit
below the current stack length, since it re-runs eviction at once.  Every
prefix of a sequence is itself a sequence, so the bound holds after each
intermediate call as well. -/
theorem c3_undo_stack_bounded (s0 : HistoryState) (h : UndoInv s0)
    (ops : List HOp) : UndoInv (runOps s0 ops) := by
  induction ops generalizing s0 with
  | nil => exact h
  | cons op rest ih => exact ih (step s0 op) (undoInv_step s0 op h)

/-- Concrete run for C3: three pushes at limit 2, then the limit is
lowered to 1 — the stack length tracks the limit throughout. -/
theorem c3_undo_stack_bounded_witness :
    UndoInv initialState ∧
      UndoInv (runOps initialState
        [HOp.pushOp (Surface.readable ⟨2, 2, [1]⟩) "a" 0,
         HOp.pushOp (Surface.readable ⟨2, 2, [2]⟩) "b" 1,
         HOp.pushOp (Surface.readable ⟨2, 2, [3]⟩) "c" 2,
         HOp.setMaxOp 1]) :=
  ⟨⟨by decide, by decide⟩,
    c3_undo_stack_bounded initialState ⟨by decide, by decide⟩ _⟩

/-! ### C6 -/

/-- C6: while the taint flag is set, `undo()` and `redo()` return `null`
and leave the whole state (in particular both stacks) unchanged, and the
only operation that turns the flag off is a `pushHistory` call that
returns `true`; `undo`, `redo`, `setMaxEntries`, `setThumbHeight`, a
failed push and thumbnail completion all leave the flag set. -/
theorem c6_tainted_semantics (s : HistoryState) (h : s.isTainted = true) :
    (∀ surf t, undo s surf t = (s, none)) ∧
    (∀ surf t, redo s surf t = (s, none)) ∧
    (∀ op : HOp, (step s op).isTainted = false →
      ∃ surf l t, op = HOp.pushOp surf l t ∧ (pushHistory s surf l t).2 = true) := by
  refine ⟨?_, ?_, ?_⟩
  · intro surf t
    simp [undo, h]
  · intro surf t
    simp [redo, h]
  · intro op hop
    cases op with
    | pushOp surf l t =>
        cases surf with
        | empty => exact absurd hop (by simp [step, pushHistory, h])
        | failing => exact absurd hop (by simp [step, pushHistory, h])
        | secure => exact absurd hop (by simp [step, pushHistory, updateUI])
        | readable img =>
            exact ⟨Surface.readable img, l, t, rfl, pushHistory_readable_snd s img l t⟩
    | undoOp surf t => exact absurd hop (by simp [step, undo, h])
    | redoOp surf t => exact absurd hop (by simp [step, redo, h])
    | setMaxOp n =>
        refine absurd hop ?_
        simp only [step, setMaxEntries]
        split
        · simp [h]
        · simp [updateUI, enforceLimits_isTainted, h]
    | setThumbOp n =>
        refine absurd hop ?_
        simp only [step, setThumbHeight]
        split
        · simp [updateUI, h]
        · simp [h]
    | thumbDoneOp i u => exact absurd hop (by simp [step, thumbComplete, updateUI, h])

/-- A reachable tainted state: a push on a cross-origin surface. -/
def taintedState : HistoryState :=
  (pushHistory initialState Surface.secure "" 0).1

/-- Concrete run for C6: after a security failure taints the state, undo
and redo are inert, and a later successful push is the step that clears
the flag. -/
theorem c6_tainted_semantics_witness :
    taintedState.isTainted = true ∧
      undo taintedState Surface.empty 5 = (taintedState, none) ∧
      redo taintedState Surface.empty 5 = (taintedState, none) ∧
      (step taintedState (HOp.pushOp (Surface.readable ⟨1, 1, [7]⟩) "recover" 9)).isTainted
        = false ∧
      ∃ surf l t,
        HOp.pushOp (Surface.readable ⟨1, 1, [7]⟩) "recover" 9 = HOp.pushOp surf l t ∧
        (pushHistory taintedState surf l t).2 = true :=
  ⟨by decide,
    (c6_tainted_semantics taintedState (by decide)).1 Surface.empty 5,
    (c6_tainted_semantics taintedState (by decide)).2.1 Surface.empty 5,
    by decide,
    (c6_tainted_semantics taintedState (by decide)).2.2
      (HOp.pushOp (Surface.readable ⟨1, 1, [7]⟩) "recover" 9) (by decide)⟩

/-! ### C2 -/

/-- A 1×1 opaque dark pixel. -/
def imgA : ImageData := ⟨1, 1, [10, 20, 30, 255]⟩

/-- A 1×1 opaque light pixel, distinct from `imgA`. -/
def imgB : ImageData := ⟨1, 1, [40, 50, 60, 255]⟩

/-- A reachable untainted state with an empty undo stack and one redo
entry: one push followed by one undo. -/
def oneRedoState : HistoryState :=
  (undo (pushHistory initialState (Surface.readable imgA) "load" 0).1
    (Surface.readable imgA) 1).1

/-- C2 fails as stated: in a state with one redo entry, a security
failure of the surface read inside `redo()` returns `null` and sets the
taint flag, but the redo stack does NOT stay unchanged — its top entry
has been popped and is lost (count drops from 1 to 0). -/
theorem c2_counterexample :
    getRedoCount oneRedoState = 1 ∧
    oneRedoState.isTainted = false ∧
    (redo oneRedoState Surface.secure 2).2 = none ∧
    (redo oneRedoState Surface.secure 2).1.isTainted = true ∧
    getRedoCount (redo oneRedoState Surface.secure 2).1 = 0 := by
  decide

/-- C2 (amended): a security-classified surface-read failure during
`pushHistory` or `undo` sets the taint flag, makes the call return
`false`/`null`, and leaves both stacks unchanged; during `redo` it sets
the flag and returns `null` with the undo stack unchanged, but the redo
stack has already lost its top entry (the pop precedes the read). -/
theorem c2_security_failure (s : HistoryState) (l : String) (t : Nat) :
    ((pushHistory s Surface.secure l t).2 = false ∧
      (pushHistory s Surface.secure l t).1.isTainted = true ∧
      (pushHistory s Surface.secure l t).1.undoStack = s.undoStack ∧
      (pushHistory s Surface.secure l t).1.redoStack = s.redoStack) ∧
    (canUndo s = true →
      (undo s Surface.secure t).2 = none ∧
      (undo s Surface.secure t).1.isTainted = true ∧
      (undo s Surface.secure t).1.undoStack = s.undoStack ∧
      (undo s Surface.secure t).1.redoStack = s.redoStack) ∧
    (canRedo s = true →
      (redo s Surface.secure t).2 = none ∧
      (redo s Surface.secure t).1.isTainted = true ∧
      (redo s Surface.secure t).1.undoStack = s.undoStack ∧
      (redo s Surface.secure t).1.redoStack = s.redoStack.dropLast) := by
  refine ⟨⟨rfl, rfl, rfl, rfl⟩, ?_, ?_⟩
  · intro hcu
    have hh : s.isTainted = false ∧ 0 < s.undoStack.length := by
      simpa [canUndo, Bool.and_eq_true, Bool.not_eq_true'] using hcu
    simp [undo, hh.1, hcu, updateUI]
  · intro hcr
    have hh : s.isTainted = false ∧ 0 < s.redoStack.length := by
      simpa [canRedo, Bool.and_eq_true, Bool.not_eq_true'] using hcr
    have hne : s.redoStack ≠ [] := List.length_pos.mp hh.2
    rcases List.eq_nil_or_concat s.redoStack with hnil | ⟨L, a, hL⟩
    · exact absurd hnil hne
    · rw [show (redo s Surface.secure t) =
          (updateUI { s with redoStack := s.redoStack.dropLast, isTainted := true },
            none) from ?_]
      · exact ⟨rfl, rfl, rfl, rfl⟩
      · unfold redo
        rw [if_neg (by simp [hh.1, hcr])]
        rw [List.concat_eq_append] at hL
        rw [hL, List.getLast?_concat]

/-- A reachable untainted state where both stacks are non-empty:
push A, push B, then one undo. -/
def bothStacksState : HistoryState :=
  (undo (pushHistory (pushHistory initialState (Surface.readable imgA) "a" 0).1
    (Surface.readable imgB) "b" 1).1 (Surface.readable imgB) 2).1

/-- Concrete run for C2: from a state where undo and redo are both
possible, a security failure makes each operation fail as characterized. -/
theorem c2_security_failure_witness :
    canUndo bothStacksState = true ∧ canRedo bothStacksState = true ∧
      (pushHistory bothStacksState Surface.secure "x" 3).2 = false ∧
      (undo bothStacksState Surface.secure 3).2 = none ∧
      (redo bothStacksState Surface.secure 3).2 = none :=
  ⟨by decide, by decide,
    (c2_security_failure bothStacksState "x" 3).1.1,
    ((c2_security_failure bothStacksState "x" 3).2.1 (by decide)).1,
    ((c2_security_failure bothStacksState "x" 3).2.2 (by decide)).1⟩

/-! ### C5 -/

/-- C5 fails as stated: in a state whose redo stack holds one entry, a
push on an empty/uninitialized surface returns `false` and the redo
stack is NOT cleared — `getRedoCount` is still 1 after the call. -/
theorem c5_counterexample :
    getRedoCount oneRedoState = 1 ∧
    (pushHistory oneRedoState Surface.empty "x" 2).2 = false ∧
    getRedoCount (pushHistory oneRedoState Surface.empty "x" 2).1 = 1 := by
  decide

/-- C5 (amended): every `pushHistory` call that returns `true` leaves the
redo stack empty (no branching history), while a push that returns
`false` leaves both stacks exactly as they were. -/
theorem c5_push_clears_redo (s : HistoryState) (surf : Surface) (l : String)
    (t : Nat) :
    ((pushHistory s surf l t).2 = true →
      getRedoCount (pushHistory s surf l t).1 = 0) ∧
    ((pushHistory s surf l t).2 = false →
      (pushHistory s surf l t).1.undoStack = s.undoStack ∧
      (pushHistory s surf l t).1.redoStack = s.redoStack) := by
  cases surf with
  | empty =>
      constructor
      · intro hT
        simp [pushHistory] at hT
      · intro _
        exact ⟨rfl, rfl⟩
  | failing =>
      constructor
      · intro hT
        simp [pushHistory] at hT
      · intro _
        exact ⟨rfl, rfl⟩
  | secure =>
      constructor
      · intro hT
        simp [pushHistory, updateUI] at hT
      · intro _
        exact ⟨rfl, rfl⟩
  | readable img =>
      constructor
      · intro _
        show (pushHistory s (Surface.readable img) l t).1.redoStack.length = 0
        rw [pushHistory_readable_redo]
        rfl
      · intro hF
        rw [pushHistory_readable_snd] at hF
        cases hF

/-- Concrete run for C5: a successful push clears a pending redo entry,
while a push failing with a non-security error leaves it in place. -/
theorem c5_push_clears_redo_witness :
    (pushHistory oneRedoState (Surface.readable imgB) "y" 5).2 = true ∧
      getRedoCount (pushHistory oneRedoState (Surface.readable imgB) "y" 5).1 = 0 ∧
      (pushHistory oneRedoState Surface.failing "z" 6).2 = false ∧
      (pushHistory oneRedoState Surface.failing "z" 6).1.redoStack =
        oneRedoState.redoStack :=
  ⟨by decide,
    (c5_push_clears_redo oneRedoState (Surface.readable imgB) "y" 5).1 (by decide),
    by decide,
    ((c5_push_clears_redo oneRedoState Surface.failing "z" 6).2 (by decide)).2⟩

/-! ### C4 -/

/-- When a nonzero byte cap is set, the byte pass of `_enforceLimits`
either reaches the cap or exhausts the undo stack, in which case only
redo-stack bytes remain. -/
theorem enforceLimits_bytes (s : HistoryState) (B : Nat)
    (hmb : s.maxBytes = some B) (hb : ¬ B = 0) :
    getEstimatedBytes (enforceLimits s) ≤ B ∨
      getEstimatedBytes (enforceLimits s) ≤ stackBytes s.redoStack := by
  unfold enforceLimits
  simp only [hmb]
  rw [if_neg hb]
  rcases enforceBytes_post B s.redoStack
      (enforceCount s.maxEntries s.undoStack s.metaMap).1
      (enforceCount s.maxEntries s.undoStack s.metaMap).2 with hpost | hpost
  · left
    exact hpost
  · right
    unfold getEstimatedBytes
    dsimp only
    rw [hpost]
    simp [stackBytes]

/-- `_enforceLimits` never increases the byte estimate. -/
theorem enforceLimits_est_le (s : HistoryState) :
    getEstimatedBytes (enforceLimits s) ≤ getEstimatedBytes s := by
  obtain ⟨k, _, heq⟩ := enforceLimits_eq_drop s
  rw [heq]
  unfold getEstimatedBytes
  dsimp only
  exact Nat.add_le_add_right (stackBytes_drop_le k _) _

/-- A freshly initialized state with `maxEntries = 50`, `maxBytes = 100`. -/
def byteCapState : HistoryState :=
  initHistory initialState
    { maxEntries := some 50, maxBytes := some 100, protectReturned := false,
      thumbnails := true, thumbHeight := none }

/-- A state reached by pushing a 5×5 surface (100 bytes, exactly at the
cap) and then undoing while the surface shows a 10×10 image. -/
def overBytesState : HistoryState :=
  (undo (pushHistory byteCapState (Surface.readable ⟨5, 5, []⟩) "small" 0).1
    (Surface.readable ⟨10, 10, []⟩) 1).1

/-- C4 fails as stated: with `maxBytes = 100`, after the mutating call
`undo()` (whose redo-base capture of a grown surface runs no byte
enforcement at all) the byte total over both stacks is 400 > 100. -/
theorem c4_counterexample :
    overBytesState.maxBytes = some 100 ∧
    getEstimatedBytes overBytesState = 400 ∧
    ¬ getEstimatedBytes overBytesState ≤ 100 := by
  decide

/-- C4 (amended): with a nonzero byte cap configured, every successful
push re-establishes `Σ(w·h·4) ≤ maxBytes` over both stacks, and every
push, redo or `setMaxEntries` call preserves the bound when it held
before the call; `undo` is excluded — it performs no byte enforcement and
can break the bound (see the counterexample). -/
theorem c4_bytes_amended (s : HistoryState) (B : Nat)
    (hmb : s.maxBytes = some B) (hb : ¬ B = 0) :
    (∀ img l t, getEstimatedBytes (pushHistory s (Surface.readable img) l t).1 ≤ B) ∧
    (∀ surf l t, getEstimatedBytes s ≤ B →
      getEstimatedBytes (pushHistory s surf l t).1 ≤ B) ∧
    (∀ surf t, getEstimatedBytes s ≤ B →
      getEstimatedBytes (redo s surf t).1 ≤ B) ∧
    (∀ n, getEstimatedBytes s ≤ B →
      getEstimatedBytes (setMaxEntries s n) ≤ B) := by
  have hpush : ∀ img l t,
      getEstimatedBytes (pushHistory s (Surface.readable img) l t).1 ≤ B := by
    intro img l t
    unfold pushHistory
    dsimp only
    split
    · rcases enforceLimits_bytes (pushState s img l t) B hmb hb with hc | hc
      · exact hc
      · exact le_trans hc (Nat.zero_le B)
    · rcases enforceLimits_bytes (pushState s img l t) B hmb hb with hc | hc
      · exact hc
      · exact le_trans hc (Nat.zero_le B)
  refine ⟨hpush, ?_, ?_, ?_⟩
  · intro surf l t hle
    cases surf with
    | empty => exact hle
    | failing => exact hle
    | secure => exact hle
    | readable img => exact hpush img l t
  · intro surf t hle
    unfold redo
    split
    · exact hle
    · split
      · exact hle
      · cases surf with
        | secure =>
            show stackBytes s.undoStack + stackBytes s.redoStack.dropLast ≤ B
            exact le_trans
              (Nat.add_le_add_left (stackBytes_dropLast_le _) _) hle
        | empty =>
            show stackBytes s.undoStack + stackBytes s.redoStack.dropLast ≤ B
            exact le_trans
              (Nat.add_le_add_left (stackBytes_dropLast_le _) _) hle
        | failing =>
            show stackBytes s.undoStack + stackBytes s.redoStack.dropLast ≤ B
            exact le_trans
              (Nat.add_le_add_left (stackBytes_dropLast_le _) _) hle
        | readable img =>
            rcases enforceLimits_bytes
                (redoCapture { s with redoStack := s.redoStack.dropLast } img t)
                B hmb hb with hc | hc
            · exact hc
            · exact le_trans hc (le_trans (stackBytes_dropLast_le _)
                (le_trans (Nat.le_add_left _ _) hle))
  · intro n hle
    unfold setMaxEntries
    split
    · exact hle
    · exact le_trans (enforceLimits_est_le _) hle

/-- Concrete run for C4: at cap 100 the bound holds after a push, after a
redo attempt, and after a limit change. -/
theorem c4_bytes_amended_witness :
    byteCapState.maxBytes = some 100 ∧
      getEstimatedBytes byteCapState ≤ 100 ∧
      getEstimatedBytes
        (pushHistory byteCapState (Surface.readable ⟨5, 5, []⟩) "p" 0).1 ≤ 100 ∧
      getEstimatedBytes (redo byteCapState Surface.empty 1).1 ≤ 100 ∧
      getEstimatedBytes (setMaxEntries byteCapState 1) ≤ 100 :=
  ⟨by decide, by decide,
    (c4_bytes_amended byteCapState 100 (by decide) (by decide)).1 ⟨5, 5, []⟩ "p" 0,
    (c4_bytes_amended byteCapState 100 (by decide) (by decide)).2.2.1
      Surface.empty 1 (by decide),
    (c4_bytes_amended byteCapState 100 (by decide) (by decide)).2.2.2
      1 (by decide)⟩

/-! ### C1 -/

/-- The state after `push` while the surface shows `imgA` and `push`
while it shows `imgB`, with `protectReturned = true`. -/
def c1State2 : HistoryState :=
  (pushHistory (pushHistory (initHistory initialState
    { maxEntries := some 50, maxBytes := none, protectReturned := true,
      thumbnails := true, thumbHeight := none })
    (Surface.readable imgA) "edit-A" 0).1 (Surface.readable imgB) "edit-B" 1).1

/-- C1 fails as stated: after push-A, push-B, the `undo()` call (surface
still showing B) returns B's bytes — the most recently pushed snapshot,
which `undoStack.pop()` removes and returns — not A's bytes. -/
theorem c1_counterexample :
    (undo c1State2 (Surface.readable imgB) 2).2 = some imgB ∧
    (undo c1State2 (Surface.readable imgB) 2).2 ≠ some imgA := by
  decide

/-- C1 (amended): with `protectReturned = true`, for any two distinct
surface states A and B, push-while-A then push-while-B then `undo()`
returns B's exact bytes (the top of the undo stack) while capturing the
current surface (B) as a redo-base; the subsequent `redo()` again returns
B's exact bytes; afterwards `getUndoCount() = 2` and `getRedoCount() = 0`. -/
theorem c1_protected_roundtrip (A B : ImageData) (_hAB : A ≠ B) :
    let p0 := initHistory initialState
      { maxEntries := some 50, maxBytes := none, protectReturned := true,
        thumbnails := true, thumbHeight := none }
    let s1 := (pushHistory p0 (Surface.readable A) "edit-A" 0).1
    let s2 := (pushHistory s1 (Surface.readable B) "edit-B" 1).1
    let u := undo s2 (Surface.readable B) 2
    let r := redo u.1 (Surface.readable B) 3
    u.2 = some B ∧ r.2 = some B ∧ getUndoCount r.1 = 2 ∧ getRedoCount r.1 = 0 := by
  intro p0 s1 s2 u r
  exact ⟨rfl, rfl, rfl, rfl⟩

/-- Concrete run for C1 with the two distinct pixels `imgA`/`imgB`. -/
theorem c1_protected_roundtrip_witness :
    imgA ≠ imgB ∧
      ((undo c1State2 (Surface.readable imgB) 2).2 = some imgB ∧
        (redo (undo c1State2 (Surface.readable imgB) 2).1
          (Surface.readable imgB) 3).2 = some imgB ∧
        getUndoCount (redo (undo c1State2 (Surface.readable imgB) 2).1
          (Surface.readable imgB) 3).1 = 2 ∧
        getRedoCount (redo (undo c1State2 (Surface.readable imgB) 2).1
          (Surface.readable imgB) 3).1 = 0) :=
  ⟨by decide, c1_protected_roundtrip imgA imgB (by decide)⟩

/-! ### C7 -/

/-- A prior module state whose effective `maxEntries` is 10 (and
`thumbHeight` 96). -/
def priorState : HistoryState := { initialState with maxEntries := 10 }

/-- C7 fails as stated: at initialization an invalid (negative)
`maxEntries` is not rejected in favour of the previously effective value
10 — it falls back to the default 50; and a `thumbnailHeight` of 20,
outside the claimed valid range [48, 256], is accepted at initialization
(the init guard is `th > 16 && th <= 256`). -/
theorem c7_counterexample :
    priorState.maxEntries = 10 ∧
    priorState.thumbHeight = 96 ∧
    (initHistory priorState
      { maxEntries := some (-5), maxBytes := none, protectReturned := false,
        thumbnails := true, thumbHeight := none }).maxEntries = 50 ∧
    (initHistory priorState
      { maxEntries := none, maxBytes := none, protectReturned := false,
        thumbnails := true, thumbHeight := some 20 }).thumbHeight = 20 := by
  decide

/-- C7 (amended): the runtime setters behave as claimed — `setMaxEntries`
rejects non-positive values and `setThumbHeight` rejects values outside
[48, 256], each leaving the whole state unchanged.  At initialization,
however, an invalid `maxEntries` falls back to the default 50 rather
than the prior value, and `thumbnailHeight` is accepted exactly when it
lies in (16, 256] (otherwise the prior module value is retained). -/
theorem c7_config_validation (s : HistoryState) :
    (∀ n : Int, n ≤ 0 → setMaxEntries s n = s) ∧
    (∀ k : Int, ¬ (48 ≤ k ∧ k ≤ 256) → setThumbHeight s k = s) ∧
    (∀ opts : InitOptions,
      (∀ m, opts.maxEntries = some m → m ≤ 0) →
      (initHistory s opts).maxEntries = DEFAULT_MAX_ENTRIES) ∧
    (∀ opts : InitOptions,
      (∀ u, opts.thumbHeight = some u → ¬ (16 < u ∧ u ≤ 256)) →
      (initHistory s opts).thumbHeight = s.thumbHeight) ∧
    (∀ opts : InitOptions, ∀ u, opts.thumbHeight = some u → 16 < u → u ≤ 256 →
      (initHistory s opts).thumbHeight = u.toNat) := by
  refine ⟨?_, ?_, ?_, ?_, ?_⟩
  · intro n hn
    unfold setMaxEntries
    rw [if_pos hn]
  · intro k hk
    unfold setThumbHeight
    rw [if_neg hk]
  · intro opts hinv
    unfold initHistory
    dsimp only [updateUI]
    rcases hme : opts.maxEntries with _ | m
    · simp only [hme]
    · have hm := hinv m hme
      simp only [hme]
      rw [if_neg (by omega)]
  · intro opts hinv
    unfold initHistory
    dsimp only [updateUI]
    rcases hth : opts.thumbHeight with _ | u
    · simp only [hth]
    · have hu := hinv u hth
      simp only [hth]
      rw [if_neg hu]
  · intro opts u hth h16 h256
    unfold initHistory
    dsimp only [updateUI]
    simp only [hth]
    rw [if_pos ⟨h16, h256⟩]

/-- Concrete run for C7: the setters reject out-of-range values against
the prior state, init falls back to 50 on a bad `maxEntries`, retains the
prior thumbnail height on a bad `thumbHeight`, and accepts 64. -/
theorem c7_config_validation_witness :
    setMaxEntries priorState (-3) = priorState ∧
      setThumbHeight priorState 300 = priorState ∧
      (initHistory priorState
        { maxEntries := some (-5), maxBytes := none, protectReturned := false,
          thumbnails := true, thumbHeight := none }).maxEntries
        = DEFAULT_MAX_ENTRIES ∧
      (initHistory priorState
        { maxEntries := none, maxBytes := none, protectReturned := false,
          thumbnails := true, thumbHeight := some 500 }).thumbHeight
        = priorState.thumbHeight ∧
      (initHistory priorState
        { maxEntries := none, maxBytes := none, protectReturned := false,
          thumbnails := true, thumbHeight := some 64 }).thumbHeight
        = (64 : Int).toNat :=
  ⟨(c7_config_validation priorState).1 (-3) (by decide),
    (c7_config_validation priorState).2.1 300 (by decide),
    (c7_config_validation priorState).2.2.1 _
      (fun m hm => by injection hm with h2 ; omega),
    (c7_config_validation priorState).2.2.2.1 _
      (fun u hu => by injection hu with h2 ; omega),
    (c7_config_validation priorState).2.2.2.2 _ 64 rfl (by decide) (by decide)⟩

/-! ### C8 -/

/-- With `maxEntries = 1`: push A (identity 0), then push B (identity 1)
— the first snapshot is evicted, so a thumbnail job for identity 0 that
completes now is stale. -/
def evictedThumbState : HistoryState :=
  (pushHistory (pushHistory (initHistory initialState
    { maxEntries := some 1, maxBytes := none, protectReturned := false,
      thumbnails := true, thumbHeight := none })
    (Surface.readable imgA) "a" 0).1 (Surface.readable imgB) "b" 1).1

/-- C8 fails as stated: when the thumbnail job for the evicted snapshot
(identity 0) completes, the handler DOES write a metadata entry for that
snapshot (the table again resolves identity 0, with the encoded preview)
and DOES emit a notification (`_updateUI` is called unconditionally). -/
theorem c8_counterexample :
    evictedThumbState.undoStack.map Snapshot.sid = [1] ∧
    metaGet evictedThumbState.metaMap 0 = none ∧
    metaGet (thumbComplete evictedThumbState 0 "u").metaMap 0 =
      some { ts := 0, label := "", thumbDataUrl := some "u" } ∧
    (thumbComplete evictedThumbState 0 "u").uiEvents =
      evictedThumbState.uiEvents + 1 := by
  decide

/-- C8 (amended): the completion handler unconditionally writes the
preview into the identity-keyed metadata table and emits a notification;
when the originating snapshot is no longer in the store the write is
harmless and invisible — the entry list derived from the undo stack is
unchanged and the stacks are untouched — so the preview is effectively
discarded, though a metadata write and a notification do occur. -/
theorem c8_stale_thumbnail (s : HistoryState) (sid : Nat) (url : String)
    (h : sid ∉ s.undoStack.map Snapshot.sid) :
    getHistoryThumbnails (thumbComplete s sid url) = getHistoryThumbnails s ∧
    (thumbComplete s sid url).undoStack = s.undoStack ∧
    (thumbComplete s sid url).redoStack = s.redoStack ∧
    (thumbComplete s sid url).uiEvents = s.uiEvents + 1 ∧
    ∃ md, metaGet (thumbComplete s sid url).metaMap sid = some md ∧
      md.thumbDataUrl = some url := by
  refine ⟨?_, rfl, rfl, rfl, ?_⟩
  · unfold getHistoryThumbnails thumbComplete
    dsimp only [updateUI]
    exact entriesFrom_metaSet 0 s.undoStack s.metaMap sid _ h
  · exact ⟨_, metaGet_metaSet_self _ _ _, rfl⟩

/-- Concrete run for C8: completing the stale job for identity 0 leaves
the visible entry list unchanged while still emitting a notification. -/
theorem c8_stale_thumbnail_witness :
    (0 ∉ evictedThumbState.undoStack.map Snapshot.sid) ∧
      getHistoryThumbnails (thumbComplete evictedThumbState 0 "u") =
        getHistoryThumbnails evictedThumbState ∧
      (thumbComplete evictedThumbState 0 "u").uiEvents =
        evictedThumbState.uiEvents + 1 :=
  ⟨by decide,
    (c8_stale_thumbnail evictedThumbState 0 "u" (by decide)).1,
    (c8_stale_thumbnail evictedThumbState 0 "u" (by decide)).2.2.2.1⟩

